import Mathlib

/-!
# Logger.h: a shallow embedding

The header defines a severity enumeration, two sinks (console and file), a
dispatcher (`Logger`) that owns an ordered vector of sinks, and a streaming
front-end (`LogStream`) that dispatches its buffer when it is destroyed.

Modelling choices:

* `std::string` is `String`; the console streams `std::cout` and `std::cerr`
  are the two text fields of `World`, each holding everything inserted so far
  (both streams are taken in their default formatting state, never failed).
* `std::ofstream` is `OFStream`: the fail bit, the text that reached the file
  through this stream, and the two pieces of formatting state the header
  touches (`std::setfill`, `std::setw`).  An insertion into a failed stream
  does nothing, as the stream's sentry refuses it.  Write errors after a
  successful open (a full disk) are not modelled.
* `time(0)` followed by `localtime` is an input: the broken-down local time
  `Tm` observed by the call.  `int` fields are unbounded integers.
* Whether the file system lets a file be opened is an input of the
  `FileSink` constructor.
* The loop of `Logger::write` returns, next to the state it leaves, the record
  of the virtual calls it makes.  With the two sinks of the header the order of
  the calls cannot be read off the output (every console sink that accepts a
  message writes the same line), so the record is what states it.
-/

namespace Utilities

/-! ## Severity scale (Logger.h, lines 11-20) -/

/-- The enumeration `Level`. -/
inductive Level where
  | NONE
  | FATAL
  | ERROR
  | WARNING
  | INFO
  | DEBUG
  | VERBOSE
deriving DecidableEq

/-- The integer value of each enumerator; `<` on `Level` in the header is the
comparison of these values. -/
def Level.toNat : Level → Nat
  | Level.NONE => 0
  | Level.FATAL => 1
  | Level.ERROR => 2
  | Level.WARNING => 3
  | Level.INFO => 4
  | Level.DEBUG => 5
  | Level.VERBOSE => 6

/-! ## The environment -/

/-- The console: what has been inserted into `std::cout` and `std::cerr`. -/
structure World where
  cout : String
  cerr : String
deriving DecidableEq

/-- The fields of `struct tm` that `FileSink::write` reads. -/
structure Tm where
  tm_sec : Int
  tm_min : Int
  tm_hour : Int
  tm_mday : Int
  tm_mon : Int
  tm_year : Int
deriving DecidableEq

/-! ## Output file streams -/

/-- A `std::ofstream`: fail bit, text written to the file through the stream,
fill character and pending field width. -/
structure OFStream where
  failbit : Bool
  content : String
  fill : Char
  width : Nat
deriving DecidableEq

/-- Right-adjust `s` in a field of `width` characters, filling on the left (the
default adjustment of an output stream). -/
def padLeft (fill : Char) (width : Nat) (s : String) : String :=
  String.mk (List.replicate (width - s.length) fill) ++ s

/-- A stream after `open`: the fail bit is set iff the open failed; the file is
truncated, the fill is a blank and no width is pending. -/
def OFStream.opened (openOk : Bool) : OFStream :=
  { failbit := !openOk, content := "", fill := ' ', width := 0 }

/-- Formatted insertion of a piece of text (`operator<<`): refused on a failed
stream; otherwise the text is padded to the pending width, which is then
reset. -/
def OFStream.insert (f : OFStream) (s : String) : OFStream :=
  if f.failbit then f
  else { f with content := f.content ++ padLeft f.fill f.width s, width := 0 }

/-- `operator<<` on an `int`: its decimal form. -/
def OFStream.insertInt (f : OFStream) (v : Int) : OFStream :=
  f.insert (toString v)

/-- `operator<<` on a `char`. -/
def OFStream.insertChar (f : OFStream) (c : Char) : OFStream :=
  f.insert (String.singleton c)

/-- `std::setfill(c)`. -/
def OFStream.setfill (f : OFStream) (c : Char) : OFStream :=
  { f with fill := c }

/-- `std::setw(n)`. -/
def OFStream.setw (f : OFStream) (n : Nat) : OFStream :=
  { f with width := n }

/-- `flush()`: the text is already in `content`. -/
def OFStream.flush (f : OFStream) : OFStream := f

/-- `std::endl`: `put` a newline (unformatted, so no padding), then flush. -/
def OFStream.endl (f : OFStream) : OFStream :=
  OFStream.flush (if f.failbit then f else { f with content := f.content ++ "\n" })

/-! ## Sinks (Logger.h, lines 22-108) -/

/-- The class `ConsoleSink`: only the inherited `m_minLevel`. -/
structure ConsoleSink where
  m_minLevel : Level
deriving DecidableEq

/-- The method `ConsoleSink::write` (lines 37-53). -/
def ConsoleSink.write (s : ConsoleSink) (level : Level) (str : String) (w : World) : World :=
  if level.toNat < s.m_minLevel.toNat then w
  else
    let w1 : World :=
      if level = Level.WARNING then { w with cout := w.cout ++ "[WARNING]: " }
      else if level = Level.INFO then { w with cout := w.cout ++ "[INGO]: " }
      else if level = Level.DEBUG then { w with cout := w.cout ++ "[DEBUG]: " }
      else if level = Level.VERBOSE then { w with cout := w.cout ++ "[VERBOSE]: " }
      else if level = Level.ERROR then { w with cerr := w.cerr ++ "[ERROR]: " }
      else w
    { w1 with cout := (w1.cout ++ str) ++ "\n" }

/-- The class `FileSink`: the inherited `m_minLevel` and the stream `m_file`. -/
structure FileSink where
  m_minLevel : Level
  m_file : OFStream
deriving DecidableEq

/-- The constructor `FileSink::FileSink` (lines 62-68); `openOk` tells whether
the file system lets `fileName` be opened for writing. -/
def FileSink.new (minLevel : Level) (fileName : String) (openOk : Bool) (w : World) :
    FileSink × World :=
  let m_file := OFStream.opened openOk
  if m_file.failbit then
    ({ m_minLevel := minLevel, m_file := m_file },
      { w with cerr := ((w.cerr ++ "Failed to open file: ") ++ fileName) ++ "\n" })
  else ({ m_minLevel := minLevel, m_file := m_file }, w)

/-- The method `FileSink::write` (lines 75-107); `now` is the local time that
`localtime(&t)` returns for this call. -/
def FileSink.write (s : FileSink) (level : Level) (str : String) (now : Tm) : FileSink :=
  if level.toNat < s.m_minLevel.toNat then s
  else
    let f := s.m_file
    let f := (f.insert "[").insertInt (now.tm_year + 1900)
    let f := f.insertChar '-'
    let f := ((f.setfill '0').setw 2).insertInt (now.tm_mon + 1)
    let f := f.insertChar '-'
    let f := ((f.setfill '0').setw 2).insertInt now.tm_mday
    let f := f.insert " "
    let f := ((f.setfill '0').setw 2).insertInt now.tm_hour
    let f := f.insert ":"
    let f := ((f.setfill '0').setw 2).insertInt now.tm_min
    let f := f.insert ":"
    let f := ((f.setfill '0').setw 2).insertInt now.tm_sec
    let f := f.insert "] "
    let f :=
      if level = Level.DEBUG then f.insert "Debug:   "
      else if level = Level.INFO then f.insert "Info:    "
      else if level = Level.WARNING then f.insert "Warning: "
      else if level = Level.ERROR then f.insert "Error:   "
      else f
    let f := (f.insert str).endl
    { s with m_file := f.flush }

/-- An owned sink: one of the two concrete subclasses of `LogSink`. -/
inductive LogSink where
  | console (s : ConsoleSink)
  | file (s : FileSink)
deriving DecidableEq

/-- The threshold `m_minLevel` of a sink. -/
def LogSink.minLevel : LogSink → Level
  | LogSink.console s => s.m_minLevel
  | LogSink.file s => s.m_minLevel

/-- The virtual call `sink->write(level, str)`. -/
def LogSink.write (s : LogSink) (level : Level) (str : String) (now : Tm) (w : World) :
    LogSink × World :=
  match s with
  | LogSink.console c => (LogSink.console c, c.write level str w)
  | LogSink.file f => (LogSink.file (f.write level str now), w)

/-! ## Dispatcher (Logger.h, lines 110-133) -/

/-- The class `Logger`: the vector `m_sinks`. -/
structure Logger where
  m_sinks : List LogSink
deriving DecidableEq

/-- The constructor `Logger()`. -/
def Logger.new : Logger := { m_sinks := [] }

/-- The method `Logger::addSink`: `push_back`. -/
def Logger.addSink (lg : Logger) (sink : LogSink) : Logger :=
  { m_sinks := lg.m_sinks ++ [sink] }

/-- One virtual call `m_sinks[index]->write(level, str)` as the loop of
`Logger::write` makes it: the position, the sink object as it is when the call
is made, and the two arguments passed. -/
structure SinkCall where
  index : Nat
  sink : LogSink
  level : Level
  str : String
deriving DecidableEq

/-- The loop of `Logger::write` from counter value `i`, with `fuel` bounding the
number of iterations; `clock i` is the local time the call on sink `i` would
observe.  The counter is taken not to wrap (fewer sinks than the range of
`unsigned int`).  Next to the sinks and the console the loop returns the record
`calls` of the virtual calls it has made, each appended when it is made. -/
def Logger.writeLoop (level : Level) (str : String) (clock : Nat → Tm) :
    Nat → Nat → List LogSink → World → List SinkCall → List LogSink × World × List SinkCall
  | 0, _, sinks, w, calls => (sinks, w, calls)
  | fuel + 1, i, sinks, w, calls =>
    if h : i < sinks.length then
      let r := LogSink.write (sinks.get ⟨i, h⟩) level str (clock i) w
      Logger.writeLoop level str clock fuel (i + 1) (sinks.set i r.1) r.2
        (calls ++ [{ index := i, sink := sinks.get ⟨i, h⟩, level := level, str := str }])
    else (sinks, w, calls)

/-- The method `Logger::write` (lines 128-132). -/
def Logger.write (lg : Logger) (level : Level) (str : String) (clock : Nat → Tm) (w : World) :
    Logger × World :=
  let r := Logger.writeLoop level str clock lg.m_sinks.length 0 lg.m_sinks w []
  ({ m_sinks := r.1 }, r.2.1)

/-- The virtual calls one `Logger::write` makes, in the order it makes them:
the record of the same run of the loop. -/
def Logger.writeCalls (lg : Logger) (level : Level) (str : String) (clock : Nat → Tm)
    (w : World) : List SinkCall :=
  (Logger.writeLoop level str clock lg.m_sinks.length 0 lg.m_sinks w []).2.2

/-! ## Message builder (Logger.h, lines 135-150) -/

/-- A value with a textual form that can be appended to a `LogStream`. -/
inductive Value where
  | str (s : String)
  | int (n : Int)
  | chr (c : Char)
deriving DecidableEq

/-- What `m_buffer << value` appends, the buffer being in its default
formatting state. -/
def Value.text : Value → String
  | Value.str s => s
  | Value.int n => toString n
  | Value.chr c => String.singleton c

/-- The class `LogStream`; the pointer `m_logger` designates the dispatcher
that is passed to `LogStream.destroy`. -/
structure LogStream where
  m_level : Level
  m_buffer : String
deriving DecidableEq

/-- The constructor `LogStream(logger, level)`: an empty buffer. -/
def LogStream.new (level : Level) : LogStream :=
  { m_level := level, m_buffer := "" }

/-- The operator `LogStream::operator<<`. -/
def LogStream.append (ls : LogStream) (value : Value) : LogStream :=
  { ls with m_buffer := ls.m_buffer ++ value.text }

/-- The destructor `~LogStream`, run on the dispatcher `m_logger` points to. -/
def LogStream.destroy (ls : LogStream) (lg : Logger) (clock : Nat → Tm) (w : World) :
    Logger × World :=
  lg.write ls.m_level ls.m_buffer clock w

/-! ## The layout the specification gives for a file line -/

/-- The text `YYYY-MM-DD HH:MM:SS` of the specification for a local time: the
year in decimal, then month (`tm_mon + 1`), day, hour, minute and second, each
in a field of two characters filled with `0`. -/
def timestampSpec (now : Tm) : String :=
  toString (now.tm_year + 1900) ++ "-" ++ padLeft '0' 2 (toString (now.tm_mon + 1)) ++ "-"
    ++ padLeft '0' 2 (toString now.tm_mday) ++ " " ++ padLeft '0' 2 (toString now.tm_hour)
    ++ ":" ++ padLeft '0' 2 (toString now.tm_min) ++ ":" ++ padLeft '0' 2 (toString now.tm_sec)

/-- The level labels the specification lists for the file sink. -/
def fileLabelSpec : Level → String
  | Level.DEBUG => "Debug:   "
  | Level.INFO => "Info:    "
  | Level.WARNING => "Warning: "
  | Level.ERROR => "Error:   "
  | _ => ""

/-- The line the specification gives for an accepted message. -/
def fileLineSpec (now : Tm) (level : Level) (message : String) : String :=
  "[" ++ timestampSpec now ++ "] " ++ fileLabelSpec level ++ message ++ "\n"

/-! ## The dispatch the specification describes -/

/-- Sink-by-sink dispatch as the specification words it: `write(level, text)` is
invoked on every owned sink, in insertion order, unconditionally; `i` is the
position of the first sink of the list. -/
def dispatchSpec (level : Level) (str : String) (clock : Nat → Tm) :
    Nat → List LogSink → World → List LogSink × World
  | _, [], w => ([], w)
  | i, s :: rest, w =>
    let r := LogSink.write s level str (clock i) w
    let r2 := dispatchSpec level str clock (i + 1) rest r.2
    (r.1 :: r2.1, r2.2)

/-- The console with nothing written to it. -/
def World.empty : World := { cout := "", cerr := "" }

/-! ## Lines and the timestamp pattern -/

/-- The number of newline characters of a text, that is the number of lines it
adds to a file that ends at a line boundary. -/
def newlineCount (s : String) : Nat := s.data.count '\n'

/-- The pattern `[YYYY-MM-DD HH:MM:SS]`, with `D` standing for any decimal
digit and every other character for itself. -/
def stampTemplate : List Char := "[DDDD-DD-DD DD:DD:DD]".data

/-- Whether a text has the pattern `[YYYY-MM-DD HH:MM:SS]`. -/
def isTimestampPattern (s : String) : Bool :=
  decide (s.data.length = stampTemplate.length) &&
    (List.zip s.data stampTemplate).all
      (fun p => if p.2 = 'D' then p.1.isDigit else decide (p.1 = p.2))

/-- A broken-down local time with a four-digit year and every other field in its
calendar range. -/
def Tm.inRange (t : Tm) : Prop :=
  1000 ≤ t.tm_year + 1900 ∧ t.tm_year + 1900 ≤ 9999 ∧ 0 ≤ t.tm_mon ∧ t.tm_mon ≤ 11 ∧
    1 ≤ t.tm_mday ∧ t.tm_mday ≤ 31 ∧ 0 ≤ t.tm_hour ∧ t.tm_hour ≤ 23 ∧
    0 ≤ t.tm_min ∧ t.tm_min ≤ 59 ∧ 0 ≤ t.tm_sec ∧ t.tm_sec ≤ 60

instance Tm.decidableInRange (t : Tm) : Decidable t.inRange := by
  unfold Tm.inRange
  infer_instance

/-! ## Decoding a rendered number -/

/-- The number a list of decimal digit characters denotes, most significant
digit first. -/
def decodeDecimal (cs : List Char) : Nat :=
  cs.foldl (fun acc c => 10 * acc + (c.toNat - '0'.toNat)) 0

/-! ## Call-site macros (Logger.h, lines 152-157) -/

/-- Name lookup in the enumeration `Level`: the enumerator a qualified name
`Level::name` designates, if the enumeration declares one. -/
def Level.ofName (name : String) : Option Level :=
  if name = "NONE" then some Level.NONE
  else if name = "FATAL" then some Level.FATAL
  else if name = "ERROR" then some Level.ERROR
  else if name = "WARNING" then some Level.WARNING
  else if name = "INFO" then some Level.INFO
  else if name = "DEBUG" then some Level.DEBUG
  else if name = "VERBOSE" then some Level.VERBOSE
  else none

/-- The four call-site macros. -/
inductive LogMacro where
  | LOG_DEBUG
  | LOG_INFO
  | LOG_WARN
  | LOG_ERR
deriving DecidableEq

/-- The enumerator name each macro body passes to the `LogStream` constructor,
as written after `Level::` on lines 154-157. -/
def LogMacro.levelName : LogMacro → String
  | LogMacro.LOG_DEBUG => "DEBUG"
  | LogMacro.LOG_INFO => "INFO"
  | LogMacro.LOG_WARN => "WARN"
  | LogMacro.LOG_ERR => "ERR"

/-- The `LogStream` a use of the macro constructs on the process-wide `logger`,
when the level name in its body resolves; `none` when the expansion does not
compile because the name is no enumerator. -/
def LogMacro.expand (m : LogMacro) : Option LogStream :=
  (Level.ofName m.levelName).map LogStream.new

/-! ## Sequences of dispatcher calls (Logger.h, lines 124-132) -/

/-- One call on a `Logger`. -/
inductive LoggerCall where
  | addSink (sink : LogSink)
  | write (level : Level) (str : String) (clock : Nat → Tm)

/-- Perform one call. -/
def Logger.step (st : Logger × World) : LoggerCall → Logger × World
  | LoggerCall.addSink sink => (st.1.addSink sink, st.2)
  | LoggerCall.write level str clock => st.1.write level str clock st.2

/-- Perform a sequence of calls, in order. -/
def Logger.run (calls : List LoggerCall) (st : Logger × World) : Logger × World :=
  calls.foldl Logger.step st

/-- The sinks a sequence of calls registers, in order. -/
def addedSinks : List LoggerCall → List LogSink
  | [] => []
  | LoggerCall.addSink sink :: rest => sink :: addedSinks rest
  | LoggerCall.write _ _ _ :: rest => addedSinks rest

/-- Which subclass a sink is: `true` for a `FileSink`. -/
def LogSink.isFile : LogSink → Bool
  | LogSink.console _ => false
  | LogSink.file _ => true

/-- The sink `r` is the sink `a` at a later time: the same subclass and
threshold; a console sink has no other state, and a file sink has the same
stream, still open or still failed, whose file holds what it held, with
possibly more text after it. -/
def LogSink.continues (a r : LogSink) : Prop :=
  match a, r with
  | LogSink.console c, LogSink.console c1 => c1 = c
  | LogSink.file f, LogSink.file f1 =>
    f1.m_minLevel = f.m_minLevel ∧ f1.m_file.failbit = f.m_file.failbit ∧
      ∃ more : String, f1.m_file.content = f.m_file.content ++ more
  | _, _ => False

/-- The sink `s`, held at position `i`, after it has itself received every
`write` of a sequence of calls, in order; registrations of other sinks do not
touch it. -/
def evolveSink (i : Nat) (s : LogSink) : List LoggerCall → LogSink
  | [] => s
  | LoggerCall.addSink _ :: rest => evolveSink i s rest
  | LoggerCall.write level str clock :: rest =>
    evolveSink i (LogSink.write s level str (clock i) World.empty).1 rest

/-- The sinks a sequence of calls registers, in order, `n` sinks being held
before it: each is the sink passed to `addSink`, having received the writes
issued after its registration. -/
def expectedSinks : List LoggerCall → Nat → List LogSink
  | [], _ => []
  | LoggerCall.addSink sink :: rest, n => evolveSink n sink rest :: expectedSinks rest (n + 1)
  | LoggerCall.write _ _ _ :: rest, n => expectedSinks rest n

/-! ## Auxiliary facts about strings and streams -/

theorem padLeft_zero (c : Char) (s : String) : padLeft c 0 s = s := by
  simp [padLeft]

theorem join_foldl (l : List String) (acc : String) :
    List.foldl (fun r s => r ++ s) acc l = acc ++ String.join l := by
  induction l generalizing acc with
  | nil => simp [String.join]
  | cons a l ih =>
    simp only [List.foldl_cons, String.join]
    rw [ih, ih ("" ++ a)]
    simp [String.append_assoc]

theorem join_cons (a : String) (l : List String) : String.join (a :: l) = a ++ String.join l := by
  show List.foldl (fun r s => r ++ s) ("" ++ a) l = a ++ String.join l
  rw [join_foldl]
  simp

theorem newlineCount_append (a b : String) :
    newlineCount (a ++ b) = newlineCount a + newlineCount b := by
  simp [newlineCount, String.data_append]

/-! ## Decimal digits -/

theorem toDigitsCore_succ (f n : Nat) (ds : List Char) :
    Nat.toDigitsCore 10 (f + 1) n ds =
      if n / 10 = 0 then (n % 10).digitChar :: ds
      else Nat.toDigitsCore 10 f (n / 10) ((n % 10).digitChar :: ds) := by
  simp [Nat.toDigitsCore]

/-- A number of four digits is rendered as its four digits. -/
theorem repr_four (n : Nat) (h1 : 1000 ≤ n) (h2 : n < 10000) :
    Nat.repr n = String.mk [(n / 1000).digitChar, (n / 100 % 10).digitChar,
      (n / 10 % 10).digitChar, (n % 10).digitChar] := by
  obtain ⟨m, rfl⟩ : ∃ m, n = m + 3 := ⟨n - 3, by omega⟩
  simp only [Nat.repr, Nat.toDigits]
  rw [toDigitsCore_succ, toDigitsCore_succ, toDigitsCore_succ, toDigitsCore_succ]
  have a1 : ¬ (m + 3) / 10 = 0 := by omega
  have a2 : ¬ (m + 3) / 10 / 10 = 0 := by omega
  have a3 : ¬ (m + 3) / 10 / 10 / 10 = 0 := by omega
  have a4 : (m + 3) / 10 / 10 / 10 / 10 = 0 := by omega
  simp only [a1, a2, a3, a4, if_true, if_false]
  have b1 : (m + 3) / 10 / 10 / 10 % 10 = (m + 3) / 1000 := by omega
  have b2 : (m + 3) / 10 / 10 % 10 = (m + 3) / 100 % 10 := by omega
  rw [b1, b2]
  rfl

/-- A number below one hundred, in a field of two filled with `0`, is rendered
as its two digits. -/
theorem padLeft_two (n : Nat) (h : n < 100) :
    padLeft '0' 2 (Nat.repr n) = String.mk [(n / 10).digitChar, (n % 10).digitChar] := by
  by_cases h10 : n < 10
  · have a1 : n / 10 = 0 := by omega
    have hr : Nat.repr n = String.mk [(n % 10).digitChar] := by
      simp only [Nat.repr, Nat.toDigits]
      rw [toDigitsCore_succ]
      simp only [a1, if_true]
      rfl
    rw [hr, a1]
    rfl
  · obtain ⟨m, rfl⟩ : ∃ m, n = m + 1 := ⟨n - 1, by omega⟩
    have hr : Nat.repr (m + 1) =
        String.mk [((m + 1) / 10).digitChar, ((m + 1) % 10).digitChar] := by
      simp only [Nat.repr, Nat.toDigits]
      rw [toDigitsCore_succ, toDigitsCore_succ]
      have a1 : ¬ (m + 1) / 10 = 0 := by omega
      have a2 : (m + 1) / 10 / 10 = 0 := by omega
      simp only [a1, a2, if_true, if_false]
      have b1 : (m + 1) / 10 % 10 = (m + 1) / 10 := by omega
      rw [b1]
      rfl
    rw [hr]
    rfl

theorem toString_natCast (n : Nat) : toString (n : Int) = Nat.repr n := rfl

theorem digit_isDigit (d : Nat) (h : d < 10) : d.digitChar.isDigit = true := by
  interval_cases d <;> decide

theorem digits_no_newline (fuel n : Nat) (ds : List Char) (h : ∀ c ∈ ds, c ≠ '\n') :
    ∀ c ∈ Nat.toDigitsCore 10 fuel n ds, c ≠ '\n' := by
  induction fuel generalizing n ds with
  | zero => simpa [Nat.toDigitsCore] using h
  | succ f ih =>
    rw [toDigitsCore_succ]
    have hd : (n % 10).digitChar ≠ '\n' := by
      have : n % 10 < 10 := Nat.mod_lt _ (by decide)
      interval_cases (n % 10) <;> decide
    have h' : ∀ c ∈ (n % 10).digitChar :: ds, c ≠ '\n' := by
      intro c hc
      rcases List.mem_cons.mp hc with rfl | hc
      · exact hd
      · exact h c hc
    split
    · exact h'
    · exact ih _ _ h'

theorem newlineCount_repr (n : Nat) : newlineCount (Nat.repr n) = 0 := by
  simp only [newlineCount, Nat.repr, List.asString, Nat.toDigits]
  apply List.count_eq_zero.mpr
  intro hmem
  exact digits_no_newline _ _ [] (by simp) _ hmem rfl

theorem newlineCount_int (v : Int) : newlineCount (toString v) = 0 := by
  cases v with
  | ofNat n => exact newlineCount_repr n
  | negSucc n =>
    show newlineCount ("-" ++ Nat.repr (Nat.succ n)) = 0
    rw [newlineCount_append, newlineCount_repr]
    rfl

theorem newlineCount_padLeft (v : Int) : newlineCount (padLeft '0' 2 (toString v)) = 0 := by
  unfold padLeft
  rw [newlineCount_append, newlineCount_int]
  simp only [newlineCount, Nat.add_zero]
  apply List.count_eq_zero.mpr
  intro hmem
  have := List.eq_of_mem_replicate hmem
  exact absurd this (by decide)

/-- The rendered timestamp never contains a newline. -/
theorem newlineCount_timestamp (now : Tm) : newlineCount (timestampSpec now) = 0 := by
  simp only [timestampSpec, newlineCount_append, newlineCount_int, newlineCount_padLeft]
  rfl

/-- For a time in range the bracketed timestamp has the pattern of the
specification. -/
theorem timestamp_pattern (now : Tm) (h : now.inRange) :
    isTimestampPattern ("[" ++ timestampSpec now ++ "]") = true := by
  obtain ⟨y1, y2, mo1, mo2, d1, d2, h1, h2, mi1, mi2, s1, s2⟩ := h
  obtain ⟨sec, min, hour, mday, mon, year⟩ := now
  simp only at y1 y2 mo1 mo2 d1 d2 h1 h2 mi1 mi2 s1 s2
  obtain ⟨Y, hY⟩ : ∃ Y : Nat, year + 1900 = (Y : Int) := ⟨(year + 1900).toNat, by omega⟩
  obtain ⟨Mo, hMo⟩ : ∃ M : Nat, mon + 1 = (M : Int) := ⟨(mon + 1).toNat, by omega⟩
  obtain ⟨D, rfl⟩ : ∃ M : Nat, mday = (M : Int) := ⟨mday.toNat, by omega⟩
  obtain ⟨H, rfl⟩ : ∃ M : Nat, hour = (M : Int) := ⟨hour.toNat, by omega⟩
  obtain ⟨Mi, rfl⟩ : ∃ M : Nat, min = (M : Int) := ⟨min.toNat, by omega⟩
  obtain ⟨S, rfl⟩ : ∃ M : Nat, sec = (M : Int) := ⟨sec.toNat, by omega⟩
  simp only [timestampSpec, hY, hMo, toString_natCast]
  rw [repr_four Y (by omega) (by omega), padLeft_two Mo (by omega), padLeft_two D (by omega),
    padLeft_two H (by omega), padLeft_two Mi (by omega), padLeft_two S (by omega)]
  have e : ∀ d : Nat, d < 10 → d.digitChar.isDigit = true := digit_isDigit
  simp [isTimestampPattern, stampTemplate, String.data_append,
    e (Y / 1000) (by omega), e (Y / 100 % 10) (by omega), e (Y / 10 % 10) (by omega),
    e (Y % 10) (by omega), e (Mo / 10) (by omega), e (Mo % 10) (by omega),
    e (D / 10) (by omega), e (D % 10) (by omega), e (H / 10) (by omega), e (H % 10) (by omega),
    e (Mi / 10) (by omega), e (Mi % 10) (by omega), e (S / 10) (by omega), e (S % 10) (by omega)]

/-! ## One write on a file sink -/

/-- Closed form of one accepted write on an open stream: the stream gains the
bracket (padded to whatever width was pending) and the rest of the line. -/
theorem write_good (T level : Level) (c : String) (fl : Char) (wd : Nat) (str : String)
    (now : Tm) (h : T.toNat ≤ level.toNat) :
    FileSink.write ⟨T, ⟨false, c, fl, wd⟩⟩ level str now =
      ⟨T, ⟨false, c ++ padLeft fl wd "[" ++ timestampSpec now ++ "] " ++ fileLabelSpec level
        ++ str ++ "\n", '0', 0⟩⟩ := by
  have h' : ¬ level.toNat < T.toNat := by omega
  have hp : "".push '-' = "-" := rfl
  simp only [FileSink.write, h', if_false, OFStream.insertInt, OFStream.insertChar,
    OFStream.setfill, OFStream.setw, OFStream.flush, OFStream.endl, OFStream.insert,
    Bool.false_eq_true, padLeft_zero, String.singleton, hp, timestampSpec]
  cases level <;> simp [String.append_assoc, fileLabelSpec, padLeft_zero]

/-- A write below the threshold returns the sink as it was. -/
theorem write_below (s : FileSink) (level : Level) (str : String) (now : Tm)
    (h : level.toNat < s.m_minLevel.toNat) : s.write level str now = s := by
  simp [FileSink.write, h]

/-- A write on a failed stream keeps it failed and adds nothing to the file. -/
theorem write_failed (s : FileSink) (level : Level) (str : String) (now : Tm)
    (hf : s.m_file.failbit = true) :
    (s.write level str now).m_file.failbit = true ∧
    (s.write level str now).m_file.content = s.m_file.content ∧
    (s.write level str now).m_minLevel = s.m_minLevel := by
  cases s with
  | mk T f =>
    cases f with
    | mk fb c fl wd =>
      simp only at hf
      subst hf
      simp only [FileSink.write, OFStream.insertInt, OFStream.insertChar,
        OFStream.setfill, OFStream.setw, OFStream.flush, OFStream.endl, OFStream.insert,
        if_true]
      split
      · simp
      · cases level <;> simp

theorem writes_failed (ws : List (Level × String × Tm)) (s : FileSink)
    (hf : s.m_file.failbit = true) :
    (ws.foldl (fun t x => FileSink.write t x.1 x.2.1 x.2.2) s).m_file.content =
      s.m_file.content := by
  induction ws generalizing s with
  | nil => rfl
  | cons x ws ih =>
    obtain ⟨h1, h2, _⟩ := write_failed s x.1 x.2.1 x.2.2 hf
    simp only [List.foldl_cons]
    rw [ih _ h1, h2]

/-! ## The dispatch loop -/

/-- The loop of `Logger::write`, started at the position where `rest` begins,
performs the dispatch of `rest` and leaves the sinks before it alone; a fuel of
at least the number of remaining sinks is enough. -/
theorem writeLoop_eq (level : Level) (str : String) (clock : Nat → Tm) :
    ∀ (rest pre : List LogSink) (w : World) (tr : List SinkCall) (fuel : Nat),
      rest.length ≤ fuel →
      Logger.writeLoop level str clock fuel pre.length (pre ++ rest) w tr =
        (pre ++ (dispatchSpec level str clock pre.length rest w).1,
          (dispatchSpec level str clock pre.length rest w).2,
          tr ++ (rest.enumFrom pre.length).map
            (fun p => { index := p.1, sink := p.2, level := level, str := str })) := by
  intro rest
  induction rest with
  | nil =>
    intro pre w tr fuel _
    cases fuel with
    | zero => simp [Logger.writeLoop, dispatchSpec]
    | succ n => simp [Logger.writeLoop, dispatchSpec]
  | cons s rest ih =>
    intro pre w tr fuel hfuel
    cases fuel with
    | zero => simp at hfuel
    | succ n =>
      have hlt : pre.length < (pre ++ s :: rest).length := by simp
      have hget : (pre ++ s :: rest).get ⟨pre.length, hlt⟩ = s := by
        rw [List.get_eq_getElem]
        simp [List.getElem_append_right]
      have hset : ∀ x : LogSink, (pre ++ s :: rest).set pre.length x = (pre ++ [x]) ++ rest := by
        intro x
        simp
      have hn : rest.length ≤ n := by
        simp at hfuel
        exact hfuel
      simp only [Logger.writeLoop, hlt, dite_true, hget, hset, dispatchSpec]
      have := ih (pre ++ [(LogSink.write s level str (clock pre.length) w).1])
        (LogSink.write s level str (clock pre.length) w).2
        (tr ++ [{ index := pre.length, sink := s, level := level, str := str }]) n hn
      simp only [List.length_append, List.length_singleton] at this
      rw [this]
      simp

theorem write_eq_dispatch (lg : Logger) (level : Level) (str : String) (clock : Nat → Tm)
    (w : World) :
    Logger.write lg level str clock w =
      ({ m_sinks := (dispatchSpec level str clock 0 lg.m_sinks w).1 },
        (dispatchSpec level str clock 0 lg.m_sinks w).2) := by
  have h := writeLoop_eq level str clock lg.m_sinks [] w [] lg.m_sinks.length (le_refl _)
  simp only [List.length_nil, List.nil_append] at h
  simp only [Logger.write, h]

/-- The calls one `Logger::write` makes are one per sink, in the order of the
vector, each on the sink as registered and with the arguments of the write. -/
theorem writeCalls_eq (lg : Logger) (level : Level) (str : String) (clock : Nat → Tm)
    (w : World) :
    Logger.writeCalls lg level str clock w =
      lg.m_sinks.enum.map (fun p => { index := p.1, sink := p.2, level := level, str := str }) := by
  have h := writeLoop_eq level str clock lg.m_sinks [] w [] lg.m_sinks.length (le_refl _)
  simp only [List.length_nil, List.nil_append] at h
  simp only [Logger.writeCalls, h, List.enum]

/-- The effect of one sink call on any console is its effect on the empty
console, appended; the sink it leaves does not depend on the console. -/
theorem sink_write_isolated (s : LogSink) (level : Level) (str : String) (now : Tm)
    (w : World) :
    (LogSink.write s level str now w).1 = (LogSink.write s level str now World.empty).1 ∧
    (LogSink.write s level str now w).2.cout =
      w.cout ++ (LogSink.write s level str now World.empty).2.cout ∧
    (LogSink.write s level str now w).2.cerr =
      w.cerr ++ (LogSink.write s level str now World.empty).2.cerr := by
  cases s with
  | console c =>
    simp only [LogSink.write, ConsoleSink.write, World.empty]
    split
    · simp
    · cases level <;> simp [String.append_assoc]
  | file f => simp [LogSink.write, World.empty]

/-- What a sink call writes to the console does not depend on the time. -/
theorem sink_write_console_time (s : LogSink) (level : Level) (str : String) (now now0 : Tm)
    (w : World) :
    (LogSink.write s level str now w).2 = (LogSink.write s level str now0 w).2 := by
  cases s <;> simp [LogSink.write]

theorem dispatchSpec_isolated (level : Level) (str : String) (clock : Nat → Tm) (now0 : Tm) :
    ∀ (l : List LogSink) (i : Nat) (w : World),
      (dispatchSpec level str clock i l w).1 =
        (l.enumFrom i).map (fun p => (LogSink.write p.2 level str (clock p.1) World.empty).1) ∧
      (dispatchSpec level str clock i l w).2.cout =
        w.cout ++ String.join
          (l.map (fun s => (LogSink.write s level str now0 World.empty).2.cout)) ∧
      (dispatchSpec level str clock i l w).2.cerr =
        w.cerr ++ String.join
          (l.map (fun s => (LogSink.write s level str now0 World.empty).2.cerr)) := by
  intro l
  induction l with
  | nil =>
    intro i w
    simp [dispatchSpec, String.join]
  | cons s rest ih =>
    intro i w
    obtain ⟨h1, h2, h3⟩ := ih (i + 1) (LogSink.write s level str (clock i) w).2
    obtain ⟨k1, k2, k3⟩ := sink_write_isolated s level str (clock i) w
    have t := sink_write_console_time s level str (clock i) now0 World.empty
    simp only [dispatchSpec, List.enumFrom_cons, List.map_cons, join_cons]
    refine ⟨?_, ?_, ?_⟩
    · rw [h1, k1]
    · rw [h2, k2, t, String.append_assoc]
    · rw [h3, k3, t, String.append_assoc]

theorem foldl_append_buffer (vs : List Value) (ls : LogStream) :
    vs.foldl LogStream.append ls =
      { m_level := ls.m_level, m_buffer := ls.m_buffer ++ String.join (vs.map Value.text) } := by
  induction vs generalizing ls with
  | nil => simp [String.join]
  | cons v vs ih =>
    simp only [List.foldl_cons, List.map_cons, join_cons]
    rw [ih]
    simp [LogStream.append, String.append_assoc]

theorem foldl_addSink (ss : List LogSink) (lg : Logger) :
    (ss.foldl Logger.addSink lg).m_sinks = lg.m_sinks ++ ss := by
  induction ss generalizing lg with
  | nil => simp
  | cons s ss ih =>
    simp only [List.foldl_cons]
    rw [ih]
    simp [Logger.addSink]

/-! ## The claims -/

/-- Claim C2: the virtual calls one `Logger::write` makes are exactly one per
sink, at the positions 0, 1, ..., N - 1 in this order, each on the sink
registered at that position and with the level and the text of the write; the
result is the sink-by-sink dispatch of the specification. The sinks it leaves
and the text it adds to the two console streams are those each sink produces on
its own, from an empty console, put together in order: the dispatcher filters
nothing, and no sink's outcome depends on another sink. -/
theorem logger_write_dispatches_each_sink (lg : Logger) (level : Level) (str : String)
    (clock : Nat → Tm) (now0 : Tm) (w : World) :
    Logger.writeCalls lg level str clock w =
      lg.m_sinks.enum.map
        (fun p => { index := p.1, sink := p.2, level := level, str := str }) ∧
    (Logger.writeCalls lg level str clock w).map SinkCall.index =
      List.range lg.m_sinks.length ∧
    (Logger.writeCalls lg level str clock w).map SinkCall.sink = lg.m_sinks ∧
    Logger.write lg level str clock w =
      ({ m_sinks := (dispatchSpec level str clock 0 lg.m_sinks w).1 },
        (dispatchSpec level str clock 0 lg.m_sinks w).2) ∧
    (Logger.write lg level str clock w).1.m_sinks =
      lg.m_sinks.enum.map (fun p => (LogSink.write p.2 level str (clock p.1) World.empty).1) ∧
    (Logger.write lg level str clock w).2.cout =
      w.cout ++ String.join
        (lg.m_sinks.map (fun s => (LogSink.write s level str now0 World.empty).2.cout)) ∧
    (Logger.write lg level str clock w).2.cerr =
      w.cerr ++ String.join
        (lg.m_sinks.map (fun s => (LogSink.write s level str now0 World.empty).2.cerr)) := by
  have h := write_eq_dispatch lg level str clock w
  have hcalls := writeCalls_eq lg level str clock w
  obtain ⟨h1, h2, h3⟩ := dispatchSpec_isolated level str clock now0 lg.m_sinks 0 w
  rw [h, hcalls]
  refine ⟨rfl, ?_, ?_, rfl, h1, h2, h3⟩
  · rw [List.map_map]
    exact List.enum_map_fst lg.m_sinks
  · rw [List.map_map]
    exact List.enum_map_snd lg.m_sinks

/-- Claim C3: destroying a `LogStream` to which the values `vs` were appended
(none included) is exactly one `Logger::write` with the bound level and the
concatenation, in order and without separators, of their textual forms;
appending `"a"`, `1`, `"b"` dispatches the text `"a1b"`. -/
theorem logstream_destroy_dispatches_once (lg : Logger) (level : Level) (vs : List Value)
    (clock : Nat → Tm) (w : World) :
    LogStream.destroy (vs.foldl LogStream.append (LogStream.new level)) lg clock w =
      Logger.write lg level (String.join (vs.map Value.text)) clock w ∧
    LogStream.destroy (LogStream.new level) lg clock w = Logger.write lg level "" clock w ∧
    LogStream.destroy
        ((((LogStream.new level).append (Value.str "a")).append (Value.int 1)).append
          (Value.str "b")) lg clock w =
      Logger.write lg level "a1b" clock w := by
  refine ⟨?_, rfl, ?_⟩
  · rw [foldl_append_buffer]
    simp [LogStream.destroy, LogStream.new]
  · have h : ((((LogStream.new level).append (Value.str "a")).append (Value.int 1)).append
        (Value.str "b")) = { m_level := level, m_buffer := "a1b" } := by
      simp only [LogStream.new, LogStream.append, Value.text]
      congr 1
    rw [h]
    rfl

/-- Claim C4: an accepted write on an open file sink appends exactly
`"[" ++ timestamp ++ "] " ++ label ++ message ++ "\n"`, the label being
`Debug:   `, `Info:    `, `Warning: `, `Error:   ` (nine characters each) for
the four labelled levels and empty for `NONE`, `FATAL` and `VERBOSE`. -/
theorem filesink_line_layout (s : FileSink) (level : Level) (str : String) (now : Tm)
    (hopen : s.m_file.failbit = false) (hwidth : s.m_file.width = 0)
    (hpass : s.m_minLevel.toNat ≤ level.toNat) :
    (s.write level str now).m_file.content =
      s.m_file.content ++
        ("[" ++ timestampSpec now ++ "] " ++ fileLabelSpec level ++ str ++ "\n") ∧
    (level = Level.DEBUG → fileLabelSpec level = "Debug:   ") ∧
    (level = Level.INFO → fileLabelSpec level = "Info:    ") ∧
    (level = Level.WARNING → fileLabelSpec level = "Warning: ") ∧
    (level = Level.ERROR → fileLabelSpec level = "Error:   ") ∧
    (level = Level.NONE ∨ level = Level.FATAL ∨ level = Level.VERBOSE →
      fileLabelSpec level = "") ∧
    (level = Level.DEBUG ∨ level = Level.INFO ∨ level = Level.WARNING ∨ level = Level.ERROR →
      (fileLabelSpec level).length = 9) := by
  refine ⟨?_, ?_, ?_, ?_, ?_, ?_, ?_⟩
  · cases s with
    | mk T f =>
      cases f with
      | mk fb c fl wd =>
        simp only at hopen hwidth hpass
        subst hopen
        subst hwidth
        rw [write_good T level c fl 0 str now hpass]
        simp [padLeft_zero, String.append_assoc]
  · rintro rfl
    rfl
  · rintro rfl
    rfl
  · rintro rfl
    rfl
  · rintro rfl
    rfl
  · rintro (rfl | rfl | rfl) <;> rfl
  · rintro (rfl | rfl | rfl | rfl) <;> rfl

/-- Claim C4, at a concrete input: a freshly opened sink with threshold `INFO`
and the message `ready` at level `INFO`. -/
theorem filesink_line_layout_witness :
    (FileSink.new Level.INFO "out.log" true World.empty).1.m_file.failbit = false ∧
    (FileSink.new Level.INFO "out.log" true World.empty).1.m_file.width = 0 ∧
    (FileSink.new Level.INFO "out.log" true World.empty).1.m_minLevel.toNat
      ≤ Level.INFO.toNat ∧
    ((FileSink.new Level.INFO "out.log" true World.empty).1.write Level.INFO "ready"
        ⟨5, 4, 3, 2, 0, 124⟩).m_file.content =
      (FileSink.new Level.INFO "out.log" true World.empty).1.m_file.content ++
        ("[" ++ timestampSpec ⟨5, 4, 3, 2, 0, 124⟩ ++ "] " ++ fileLabelSpec Level.INFO
          ++ "ready" ++ "\n") :=
  ⟨rfl, rfl, by decide,
    (filesink_line_layout (FileSink.new Level.INFO "out.log" true World.empty).1
      Level.INFO "ready" ⟨5, 4, 3, 2, 0, 124⟩ rfl rfl (by decide)).1⟩

/-- Claim C5, the code at an accepted `ERROR` message: only the tag reaches the
error stream; the message text and the newline go to standard output. -/
theorem consolesink_error_line_split :
    ConsoleSink.write ⟨Level.NONE⟩ Level.ERROR "boom" World.empty =
      { cout := "boom\n", cerr := "[ERROR]: " } := by
  decide

/-- Claim C6: `addSink` leaves the collection equal to the former one followed
by the new sink: the count grows by one, the sinks already there keep their
positions, the new sink is last, and any number of later registrations are all
accepted the same way. -/
theorem logger_addSink_appends (lg : Logger) (s : LogSink) (later : List LogSink) :
    (lg.addSink s).m_sinks = lg.m_sinks ++ [s] ∧
    (lg.addSink s).m_sinks.length = lg.m_sinks.length + 1 ∧
    (lg.addSink s).m_sinks.take lg.m_sinks.length = lg.m_sinks ∧
    (lg.addSink s).m_sinks.get? lg.m_sinks.length = some s ∧
    (later.foldl Logger.addSink (lg.addSink s)).m_sinks = lg.m_sinks ++ [s] ++ later ∧
    (later.foldl Logger.addSink (lg.addSink s)).m_sinks.length =
      lg.m_sinks.length + 1 + later.length := by
  have h := foldl_addSink later (lg.addSink s)
  refine ⟨rfl, by simp [Logger.addSink], by simp [Logger.addSink],
    by simp [Logger.addSink], h, ?_⟩
  rw [h]
  simp [Logger.addSink]
  omega

/-- Claim C7: constructing a `FileSink` whose file cannot be opened returns a
sink and only adds the one report to the error stream; after it, a write at any
level, and any sequence of writes, adds nothing to the file and nothing to the
console. -/
theorem filesink_failed_open_silent (minLevel : Level) (fileName : String) (w w1 : World)
    (level : Level) (str : String) (now : Tm) (ws : List (Level × String × Tm)) :
    (FileSink.new minLevel fileName false w).2.cout = w.cout ∧
    (FileSink.new minLevel fileName false w).2.cerr =
      w.cerr ++ "Failed to open file: " ++ fileName ++ "\n" ∧
    (FileSink.new minLevel fileName false w).1.m_file.content = "" ∧
    (((FileSink.new minLevel fileName false w).1.write level str now).m_file.content = "") ∧
    (LogSink.write (LogSink.file (FileSink.new minLevel fileName false w).1)
      level str now w1).2 = w1 ∧
    (ws.foldl (fun t x => FileSink.write t x.1 x.2.1 x.2.2)
      (FileSink.new minLevel fileName false w).1).m_file.content = "" := by
  have hf : (FileSink.new minLevel fileName false w).1.m_file.failbit = true := by
    simp [FileSink.new, OFStream.opened]
  have hc : (FileSink.new minLevel fileName false w).1.m_file.content = "" := by
    simp [FileSink.new, OFStream.opened]
  refine ⟨by simp [FileSink.new, OFStream.opened], by simp [FileSink.new, OFStream.opened],
    hc, ?_, rfl, ?_⟩
  · rw [(write_failed _ level str now hf).2.1, hc]
  · rw [writes_failed ws _ hf, hc]

/-- Claim C8, refuted as stated: in the scenario the console sink (threshold
`INFO`) writes nothing for the `WARNING` message, so standard output stays
empty. -/
theorem scenario_console_counterexample :
    (Logger.write
        ⟨[LogSink.console ⟨Level.INFO⟩,
          LogSink.file (FileSink.new Level.ERROR "out.log" true World.empty).1]⟩
        Level.WARNING "disk low" (fun _ => ⟨5, 4, 3, 2, 0, 124⟩) World.empty).2.cout = "" ∧
    (Logger.write
        ⟨[LogSink.console ⟨Level.INFO⟩,
          LogSink.file (FileSink.new Level.ERROR "out.log" true World.empty).1]⟩
        Level.WARNING "disk low" (fun _ => ⟨5, 4, 3, 2, 0, 124⟩) World.empty).2.cout
      ≠ "[WARNING]: disk low\n" := by
  decide

/-- Claim C8, amended: with a console sink of threshold `INFO` and a file sink
of threshold `ERROR`, `write(WARNING, "disk low")` leaves both console streams
as they were (`WARNING` = 3 is below `INFO` = 4); with a console threshold of
`WARNING` or lower the line `[WARNING]: disk low` is added to standard
output. -/
theorem scenario_console_threshold (f : OFStream) (clock : Nat → Tm) (w : World) (T : Level)
    (hT : T.toNat ≤ Level.WARNING.toNat) :
    (Logger.write ⟨[LogSink.console ⟨Level.INFO⟩, LogSink.file ⟨Level.ERROR, f⟩]⟩
      Level.WARNING "disk low" clock w).2 = w ∧
    (Logger.write ⟨[LogSink.console ⟨T⟩, LogSink.file ⟨Level.ERROR, f⟩]⟩
      Level.WARNING "disk low" clock w).2 =
        { cout := w.cout ++ "[WARNING]: disk low\n", cerr := w.cerr } := by
  have hT' : ¬ Level.WARNING.toNat < T.toNat := by omega
  constructor
  · rw [write_eq_dispatch]
    simp [dispatchSpec, LogSink.write, ConsoleSink.write, Level.toNat]
  · rw [write_eq_dispatch]
    simp [dispatchSpec, LogSink.write, ConsoleSink.write, hT', String.append_assoc]

/-- Claim C8 amended, at a concrete input: console threshold `WARNING`. -/
theorem scenario_console_threshold_witness :
    Level.WARNING.toNat ≤ Level.WARNING.toNat ∧
    (Logger.write
        ⟨[LogSink.console ⟨Level.WARNING⟩, LogSink.file ⟨Level.ERROR, OFStream.opened true⟩]⟩
        Level.WARNING "disk low" (fun _ => ⟨5, 4, 3, 2, 0, 124⟩) World.empty).2 =
      { cout := World.empty.cout ++ "[WARNING]: disk low\n", cerr := World.empty.cerr } :=
  ⟨by decide, (scenario_console_threshold (OFStream.opened true) (fun _ => ⟨5, 4, 3, 2, 0, 124⟩)
    World.empty Level.WARNING (by decide)).2⟩

/-- Claim C9, refuted as stated: in the scenario the line the file gains
carries the label `Warning: ` between the timestamp and the message; it is not
the line with an empty label. -/
theorem scenario_file_counterexample :
    (Logger.write
        ⟨[LogSink.console ⟨Level.INFO⟩,
          LogSink.file (FileSink.new Level.ERROR "out.log" true World.empty).1]⟩
        Level.WARNING "disk low" (fun _ => ⟨5, 4, 3, 2, 0, 124⟩) World.empty).1.m_sinks =
      [LogSink.console ⟨Level.INFO⟩,
        LogSink.file ⟨Level.ERROR,
          ⟨false, "[2024-01-02 03:04:05] Warning: disk low\n", '0', 0⟩⟩] ∧
    "[2024-01-02 03:04:05] Warning: disk low\n" ≠ "[2024-01-02 03:04:05] disk low\n" := by
  decide

/-- Claim C9, amended: with a console sink of threshold `INFO` and an open file
sink of threshold `ERROR`, `write(WARNING, "disk low")` makes the file gain
exactly one line, `[<timestamp>] Warning: disk low`: `WARNING` passes the
`ERROR` threshold and the file sink labels it `Warning: `. -/
theorem scenario_file_warning_label (f : OFStream) (clock : Nat → Tm) (w : World)
    (hopen : f.failbit = false) (hwidth : f.width = 0) :
    (Logger.write ⟨[LogSink.console ⟨Level.INFO⟩, LogSink.file ⟨Level.ERROR, f⟩]⟩
      Level.WARNING "disk low" clock w).1.m_sinks =
        [LogSink.console ⟨Level.INFO⟩,
          LogSink.file ⟨Level.ERROR,
            ⟨false, f.content ++ ("[" ++ timestampSpec (clock 1) ++ "] Warning: disk low\n"),
              '0', 0⟩⟩] ∧
    newlineCount ("[" ++ timestampSpec (clock 1) ++ "] Warning: disk low\n") = 1 := by
  constructor
  · cases f with
    | mk fb c fl wd =>
      simp only at hopen hwidth
      subst hopen
      subst hwidth
      rw [write_eq_dispatch]
      simp only [dispatchSpec, LogSink.write]
      rw [write_good Level.ERROR Level.WARNING c fl 0 "disk low" (clock 1) (by decide)]
      simp [padLeft_zero, String.append_assoc, fileLabelSpec]
  · rw [newlineCount_append, newlineCount_append, newlineCount_timestamp]
    rfl

/-- Claim C9 amended, at a concrete input: a freshly opened file. -/
theorem scenario_file_warning_label_witness :
    (OFStream.opened true).failbit = false ∧ (OFStream.opened true).width = 0 ∧
    (Logger.write
        ⟨[LogSink.console ⟨Level.INFO⟩, LogSink.file ⟨Level.ERROR, OFStream.opened true⟩]⟩
        Level.WARNING "disk low" (fun _ => ⟨5, 4, 3, 2, 0, 124⟩) World.empty).1.m_sinks =
      [LogSink.console ⟨Level.INFO⟩,
        LogSink.file ⟨Level.ERROR,
          ⟨false, (OFStream.opened true).content ++
            ("[" ++ timestampSpec ⟨5, 4, 3, 2, 0, 124⟩ ++ "] Warning: disk low\n"), '0', 0⟩⟩] :=
  ⟨rfl, rfl, (scenario_file_warning_label (OFStream.opened true)
    (fun _ => ⟨5, 4, 3, 2, 0, 124⟩) World.empty rfl rfl).1⟩

/-- Claim C10, refuted as stated: on a sink with threshold `DEBUG` the `ERROR`
message is dropped, so after the two writes the file holds one line, not
two. -/
theorem debug_then_error_counterexample :
    (((FileSink.new Level.DEBUG "out.log" true World.empty).1.write Level.DEBUG "a"
        ⟨5, 4, 3, 2, 0, 124⟩).write Level.ERROR "b" ⟨6, 4, 3, 2, 0, 124⟩).m_file.content =
      "[2024-01-02 03:04:05] Debug:   a\n" ∧
    newlineCount "[2024-01-02 03:04:05] Debug:   a\n" = 1 ∧
    "[2024-01-02 03:04:05] Debug:   a\n" ≠
      "[2024-01-02 03:04:05] Debug:   a\n[2024-01-02 03:04:06] Error:   b\n" := by
  decide

/-- Claim C10, amended: for an open file sink, messages `m1`, `m2` without
newlines and local times in range, writing `m1` at `DEBUG` and then `m2` at
`ERROR` makes the file gain, with threshold `DEBUG`, exactly one line, the
timestamp followed by `Debug:   ` and `m1` (`ERROR` = 2 is below `DEBUG` = 5),
and, with a threshold of `ERROR` or lower, exactly two lines in call order, the
second being the timestamp followed by `Error:   ` and `m2`; each timestamp has
the pattern `[YYYY-MM-DD HH:MM:SS]`. -/
theorem debug_then_error_lines (f : OFStream) (m1 m2 : String) (t1 t2 : Tm) (T : Level)
    (hopen : f.failbit = false) (hwidth : f.width = 0)
    (h1 : newlineCount m1 = 0) (h2 : newlineCount m2 = 0)
    (ht1 : t1.inRange) (ht2 : t2.inRange) (hT : T.toNat ≤ Level.ERROR.toNat) :
    ((FileSink.write ⟨Level.DEBUG, f⟩ Level.DEBUG m1 t1).write Level.ERROR m2 t2).m_file.content =
      f.content ++ ("[" ++ timestampSpec t1 ++ "]" ++ " " ++ "Debug:   " ++ m1 ++ "\n") ∧
    ((FileSink.write ⟨T, f⟩ Level.DEBUG m1 t1).write Level.ERROR m2 t2).m_file.content =
      f.content ++ ("[" ++ timestampSpec t1 ++ "]" ++ " " ++ "Debug:   " ++ m1 ++ "\n")
        ++ ("[" ++ timestampSpec t2 ++ "]" ++ " " ++ "Error:   " ++ m2 ++ "\n") ∧
    isTimestampPattern ("[" ++ timestampSpec t1 ++ "]") = true ∧
    isTimestampPattern ("[" ++ timestampSpec t2 ++ "]") = true ∧
    newlineCount ("[" ++ timestampSpec t1 ++ "]" ++ " " ++ "Debug:   " ++ m1 ++ "\n") = 1 ∧
    newlineCount ("[" ++ timestampSpec t2 ++ "]" ++ " " ++ "Error:   " ++ m2 ++ "\n") = 1 := by
  cases f with
  | mk fb c fl wd =>
    simp only at hopen hwidth
    subst hopen
    subst hwidth
    refine ⟨?_, ?_, timestamp_pattern t1 ht1, timestamp_pattern t2 ht2, ?_, ?_⟩
    · rw [write_good Level.DEBUG Level.DEBUG c fl 0 m1 t1 (le_refl _)]
      have hb : ∀ g : OFStream,
          FileSink.write ⟨Level.DEBUG, g⟩ Level.ERROR m2 t2 = ⟨Level.DEBUG, g⟩ :=
        fun g => write_below _ _ _ _ (show Level.ERROR.toNat < Level.DEBUG.toNat by decide)
      rw [hb]
      simp [padLeft_zero, String.append_assoc, fileLabelSpec]
    · have hD : T.toNat ≤ Level.DEBUG.toNat := le_trans hT (by decide)
      rw [write_good T Level.DEBUG c fl 0 m1 t1 hD]
      rw [write_good T Level.ERROR _ '0' 0 m2 t2 hT]
      have hj : ∀ r : String, "\n" ++ ("[" ++ r) = "\n[" ++ r := by
        intro r
        rw [← String.append_assoc]
        rfl
      simp [padLeft_zero, String.append_assoc, fileLabelSpec, hj]
    · simp only [newlineCount_append, newlineCount_timestamp, h1]
      rfl
    · simp only [newlineCount_append, newlineCount_timestamp, h2]
      rfl

/-- Claim C10 amended, at a concrete input: a freshly opened file, threshold
`ERROR`, the messages `a` and `b` one second apart. -/
theorem debug_then_error_lines_witness :
    (OFStream.opened true).failbit = false ∧ (OFStream.opened true).width = 0 ∧
    newlineCount "a" = 0 ∧ newlineCount "b" = 0 ∧
    Tm.inRange ⟨5, 4, 3, 2, 0, 124⟩ ∧ Tm.inRange ⟨6, 4, 3, 2, 0, 124⟩ ∧
    Level.ERROR.toNat ≤ Level.ERROR.toNat ∧
    ((FileSink.write ⟨Level.ERROR, OFStream.opened true⟩ Level.DEBUG "a"
        ⟨5, 4, 3, 2, 0, 124⟩).write Level.ERROR "b" ⟨6, 4, 3, 2, 0, 124⟩).m_file.content =
      (OFStream.opened true).content
        ++ ("[" ++ timestampSpec ⟨5, 4, 3, 2, 0, 124⟩ ++ "]" ++ " " ++ "Debug:   " ++ "a" ++ "\n")
        ++ ("[" ++ timestampSpec ⟨6, 4, 3, 2, 0, 124⟩ ++ "]" ++ " " ++ "Error:   " ++ "b"
          ++ "\n") :=
  ⟨rfl, rfl, by decide, by decide, by decide, by decide, by decide,
    (debug_then_error_lines (OFStream.opened true) "a" "b" ⟨5, 4, 3, 2, 0, 124⟩
      ⟨6, 4, 3, 2, 0, 124⟩ Level.ERROR rfl rfl (by decide) (by decide) (by decide)
      (by decide) (by decide)).2.1⟩

/-! ## Further auxiliary facts -/

theorem digit_value (d : Nat) (h : d < 10) : d.digitChar.toNat - '0'.toNat = d := by
  interval_cases d <;> rfl

/-- For a time in range the rendered timestamp is the nineteen characters
`YYYY-MM-DD HH:MM:SS`, each digit being the decimal digit of its field. -/
theorem timestamp_chars (now : Tm) (h : now.inRange) :
    timestampSpec now =
      String.mk
        [((now.tm_year + 1900).toNat / 1000).digitChar,
          ((now.tm_year + 1900).toNat / 100 % 10).digitChar,
          ((now.tm_year + 1900).toNat / 10 % 10).digitChar,
          ((now.tm_year + 1900).toNat % 10).digitChar, '-',
          ((now.tm_mon + 1).toNat / 10).digitChar, ((now.tm_mon + 1).toNat % 10).digitChar, '-',
          (now.tm_mday.toNat / 10).digitChar, (now.tm_mday.toNat % 10).digitChar, ' ',
          (now.tm_hour.toNat / 10).digitChar, (now.tm_hour.toNat % 10).digitChar, ':',
          (now.tm_min.toNat / 10).digitChar, (now.tm_min.toNat % 10).digitChar, ':',
          (now.tm_sec.toNat / 10).digitChar, (now.tm_sec.toNat % 10).digitChar] := by
  obtain ⟨y1, y2, mo1, mo2, d1, d2, h1, h2, mi1, mi2, s1, s2⟩ := h
  obtain ⟨sec, min, hour, mday, mon, year⟩ := now
  simp only at y1 y2 mo1 mo2 d1 d2 h1 h2 mi1 mi2 s1 s2
  have eY : year + 1900 = ((year + 1900).toNat : Int) := by omega
  have eMo : mon + 1 = ((mon + 1).toNat : Int) := by omega
  have eD : mday = (mday.toNat : Int) := by omega
  have eH : hour = (hour.toNat : Int) := by omega
  have eMi : min = (min.toNat : Int) := by omega
  have eS : sec = (sec.toNat : Int) := by omega
  simp only [timestampSpec]
  rw [eY, eMo, eD, eH, eMi, eS]
  simp only [toString_natCast, Int.toNat_ofNat]
  rw [repr_four _ (by omega) (by omega), padLeft_two _ (by omega), padLeft_two _ (by omega),
    padLeft_two _ (by omega), padLeft_two _ (by omega), padLeft_two _ (by omega)]
  rfl

theorem label_no_newline (level : Level) : newlineCount (fileLabelSpec level) = 0 := by
  cases level <;> rfl

theorem sink_write_shape (s : LogSink) (level : Level) (str : String) (now : Tm) (w : World) :
    (LogSink.write s level str now w).1.minLevel = s.minLevel ∧
    (LogSink.write s level str now w).1.isFile = s.isFile := by
  cases s with
  | console c => simp [LogSink.write, LogSink.minLevel, LogSink.isFile]
  | file f =>
    simp only [LogSink.write, LogSink.minLevel, LogSink.isFile, FileSink.write]
    split <;> simp

theorem dispatchSpec_shape (level : Level) (str : String) (clock : Nat → Tm) :
    ∀ (l : List LogSink) (i : Nat) (w : World),
      (dispatchSpec level str clock i l w).1.map LogSink.minLevel = l.map LogSink.minLevel ∧
      (dispatchSpec level str clock i l w).1.map LogSink.isFile = l.map LogSink.isFile := by
  intro l
  induction l with
  | nil =>
    intro i w
    simp [dispatchSpec]
  | cons s rest ih =>
    intro i w
    obtain ⟨h1, h2⟩ := ih (i + 1) (LogSink.write s level str (clock i) w).2
    obtain ⟨k1, k2⟩ := sink_write_shape s level str (clock i) w
    simp only [dispatchSpec, List.map_cons]
    rw [h1, h2, k1, k2]
    exact ⟨rfl, rfl⟩

/-- One `Logger::write` keeps the number of sinks, their subclasses and their
thresholds. -/
theorem write_shape (lg : Logger) (level : Level) (str : String) (clock : Nat → Tm)
    (w : World) :
    (Logger.write lg level str clock w).1.m_sinks.map LogSink.minLevel =
      lg.m_sinks.map LogSink.minLevel ∧
    (Logger.write lg level str clock w).1.m_sinks.map LogSink.isFile =
      lg.m_sinks.map LogSink.isFile := by
  rw [write_eq_dispatch]
  exact dispatchSpec_shape level str clock lg.m_sinks 0 w

theorem run_shape (calls : List LoggerCall) :
    ∀ st : Logger × World,
      (Logger.run calls st).1.m_sinks.map LogSink.minLevel =
        st.1.m_sinks.map LogSink.minLevel ++ (addedSinks calls).map LogSink.minLevel ∧
      (Logger.run calls st).1.m_sinks.map LogSink.isFile =
        st.1.m_sinks.map LogSink.isFile ++ (addedSinks calls).map LogSink.isFile := by
  induction calls with
  | nil =>
    intro st
    simp [Logger.run, addedSinks]
  | cons c rest ih =>
    intro st
    have hrun : Logger.run (c :: rest) st = Logger.run rest (Logger.step st c) := rfl
    obtain ⟨h1, h2⟩ := ih (Logger.step st c)
    rw [hrun, h1, h2]
    cases c with
    | addSink sink => simp [Logger.step, Logger.addSink, addedSinks]
    | write level str clock =>
      obtain ⟨k1, k2⟩ := write_shape st.1 level str clock st.2
      simp only [Logger.step, addedSinks]
      rw [k1, k2]
      exact ⟨rfl, rfl⟩

/-! ## Sinks over a sequence of calls -/

theorem enumFrom_map_enumFrom {α β : Type} (f : Nat × α → β) :
    ∀ (l : List α) (n : Nat),
      ((l.enumFrom n).map f).enumFrom n = (l.enumFrom n).map (fun p => (p.1, f p)) := by
  intro l
  induction l with
  | nil =>
    intro n
    rfl
  | cons a l ih =>
    intro n
    simp only [List.enumFrom_cons, List.map_cons]
    rw [ih (n + 1)]

/-- The sinks one `Logger::write` leaves: each sink of the vector, at its
position, after its own `write`. -/
theorem write_sinks_eq (lg : Logger) (level : Level) (str : String) (clock : Nat → Tm)
    (w : World) :
    (Logger.write lg level str clock w).1.m_sinks =
      lg.m_sinks.enum.map (fun p => (LogSink.write p.2 level str (clock p.1) World.empty).1) := by
  rw [write_eq_dispatch]
  exact (dispatchSpec_isolated level str clock (clock 0) lg.m_sinks 0 w).1

theorem continues_refl (a : LogSink) : LogSink.continues a a := by
  cases a with
  | console c => simp [LogSink.continues]
  | file f => exact ⟨rfl, rfl, "", by simp⟩

theorem continues_trans (a b c : LogSink) (h1 : LogSink.continues a b)
    (h2 : LogSink.continues b c) : LogSink.continues a c := by
  cases a <;> cases b <;> cases c <;> simp only [LogSink.continues] at h1 h2 ⊢
  · rw [h2, h1]
  · obtain ⟨m1, f1, x, hx⟩ := h1
    obtain ⟨m2, f2, y, hy⟩ := h2
    exact ⟨by rw [m2, m1], by rw [f2, f1], x ++ y, by rw [hy, hx, String.append_assoc]⟩

/-- One `write` on a file sink keeps its threshold and its fail bit, and only
adds to the text of its file. -/
theorem filesink_write_extends (f : FileSink) (level : Level) (str : String) (now : Tm) :
    (f.write level str now).m_minLevel = f.m_minLevel ∧
    (f.write level str now).m_file.failbit = f.m_file.failbit ∧
    ∃ more : String, (f.write level str now).m_file.content = f.m_file.content ++ more := by
  by_cases hlt : level.toNat < f.m_minLevel.toNat
  · rw [write_below f level str now hlt]
    exact ⟨rfl, rfl, "", by simp⟩
  · cases hfb : f.m_file.failbit with
    | true =>
      obtain ⟨h1, h2, h3⟩ := write_failed f level str now hfb
      exact ⟨h3, h1, "", by rw [h2]; simp⟩
    | false =>
      cases f with
      | mk T g =>
        cases g with
        | mk fb c fl wd =>
          simp only at hfb hlt
          subst hfb
          rw [write_good T level c fl wd str now (by omega)]
          exact ⟨rfl, rfl,
            padLeft fl wd "[" ++ (timestampSpec now ++ ("] " ++ (fileLabelSpec level
              ++ (str ++ "\n")))),
            by simp only [String.append_assoc]⟩

theorem sink_write_continues (s : LogSink) (level : Level) (str : String) (now : Tm)
    (w : World) : LogSink.continues s (LogSink.write s level str now w).1 := by
  cases s with
  | console c => simp [LogSink.write, LogSink.continues]
  | file f => exact filesink_write_extends f level str now

theorem evolveSink_continues (calls : List LoggerCall) :
    ∀ (i : Nat) (s : LogSink), LogSink.continues s (evolveSink i s calls) := by
  induction calls with
  | nil =>
    intro i s
    exact continues_refl s
  | cons c rest ih =>
    intro i s
    cases c with
    | addSink sink => exact ih i s
    | write level str clock =>
      exact continues_trans _ _ _ (sink_write_continues s level str (clock i) World.empty)
        (ih i _)

theorem expectedSinks_continues (calls : List LoggerCall) :
    ∀ n : Nat, List.Forall₂ LogSink.continues (addedSinks calls) (expectedSinks calls n) := by
  induction calls with
  | nil =>
    intro n
    exact List.Forall₂.nil
  | cons c rest ih =>
    intro n
    cases c with
    | addSink sink => exact List.Forall₂.cons (evolveSink_continues rest n sink) (ih (n + 1))
    | write level str clock => exact ih n

theorem enum_map_continues (g : Nat × LogSink → LogSink)
    (hg : ∀ p : Nat × LogSink, LogSink.continues p.2 (g p)) :
    ∀ (l : List LogSink) (n : Nat), List.Forall₂ LogSink.continues l ((l.enumFrom n).map g) := by
  intro l
  induction l with
  | nil =>
    intro n
    exact List.Forall₂.nil
  | cons a l ih =>
    intro n
    exact List.Forall₂.cons (hg (n, a)) (ih (n + 1))

/-- After a sequence of calls the sinks held are those held before, each
having received the writes of the sequence, followed by the sinks the sequence
registers, each having received the writes after its registration. -/
theorem run_sinks_eq (calls : List LoggerCall) :
    ∀ st : Logger × World,
      (Logger.run calls st).1.m_sinks =
        st.1.m_sinks.enum.map (fun p => evolveSink p.1 p.2 calls)
          ++ expectedSinks calls st.1.m_sinks.length := by
  induction calls with
  | nil =>
    intro st
    simp only [Logger.run, List.foldl_nil, evolveSink, expectedSinks, List.append_nil]
    exact (List.enum_map_snd st.1.m_sinks).symm
  | cons c rest ih =>
    intro st
    have hrun : Logger.run (c :: rest) st = Logger.run rest (Logger.step st c) := rfl
    rw [hrun, ih (Logger.step st c)]
    cases c with
    | addSink sink =>
      simp only [Logger.step, Logger.addSink, evolveSink, expectedSinks, List.enum_append,
        List.map_append, List.length_append, List.length_singleton, List.enumFrom_cons,
        List.enumFrom_nil, List.map_cons, List.map_nil, List.append_assoc,
        List.singleton_append]
    | write level str clock =>
      have hs := write_sinks_eq st.1 level str clock st.2
      have hl : (Logger.write st.1 level str clock st.2).1.m_sinks.length =
          st.1.m_sinks.length := by
        rw [hs]
        simp
      simp only [Logger.step, evolveSink, expectedSinks]
      rw [hl, hs]
      simp only [List.enum]
      rw [enumFrom_map_enumFrom, List.map_map]
      rfl

/-! ## The claims, continued -/

/-- Claim C11, refuted as stated: a sink whose threshold is `NONE` does emit a
message routed at level `NONE`; the console sink writes the text and a newline,
the file sink a full line with an empty label. -/
theorem none_level_counterexample :
    ConsoleSink.write ⟨Level.NONE⟩ Level.NONE "x" World.empty =
      { cout := "x\n", cerr := "" } ∧
    (FileSink.write ⟨Level.NONE, OFStream.opened true⟩ Level.NONE "x"
      ⟨5, 4, 3, 2, 0, 124⟩).m_file.content = "[2024-01-02 03:04:05] x\n" := by
  decide

/-- Claim C11, amended: the filter is the plain numeric comparison, with no
special case for `NONE`. A message routed at level `NONE` is dropped by every
console or file sink whose threshold is above `NONE`, which is left exactly as
it was, and is emitted by a sink whose threshold is `NONE`: the console sink
adds the text and a newline to standard output, an open file sink adds to its
file. -/
theorem none_level_only_below_threshold (T : Level) (str : String) (w : World)
    (f : OFStream) (now : Tm) (hT : T ≠ Level.NONE) :
    ConsoleSink.write ⟨T⟩ Level.NONE str w = w ∧
    FileSink.write ⟨T, f⟩ Level.NONE str now = ⟨T, f⟩ ∧
    ConsoleSink.write ⟨Level.NONE⟩ Level.NONE str w =
      { cout := w.cout ++ str ++ "\n", cerr := w.cerr } ∧
    (f.failbit = false →
      (FileSink.write ⟨Level.NONE, f⟩ Level.NONE str now).m_file.content =
        f.content ++ padLeft f.fill f.width "[" ++ timestampSpec now ++ "] " ++ str ++ "\n") := by
  have hlt : Level.NONE.toNat < T.toNat := by
    cases T <;> first | exact absurd rfl hT | decide
  refine ⟨by simp [ConsoleSink.write, hlt], write_below _ _ _ _ hlt,
    by simp [ConsoleSink.write], ?_⟩
  intro hf
  cases f with
  | mk fb c fl wd =>
    simp only at hf
    subst hf
    rw [write_good Level.NONE Level.NONE c fl wd str now (le_refl _)]
    simp [fileLabelSpec, String.append_assoc]

/-- Claim C11 amended, at a concrete input: threshold `FATAL`. -/
theorem none_level_only_below_threshold_witness :
    Level.FATAL ≠ Level.NONE ∧
    ConsoleSink.write ⟨Level.FATAL⟩ Level.NONE "x" World.empty = World.empty ∧
    FileSink.write ⟨Level.FATAL, OFStream.opened true⟩ Level.NONE "x" ⟨5, 4, 3, 2, 0, 124⟩ =
      ⟨Level.FATAL, OFStream.opened true⟩ :=
  ⟨by decide,
    (none_level_only_below_threshold Level.FATAL "x" World.empty (OFStream.opened true)
      ⟨5, 4, 3, 2, 0, 124⟩ (by decide)).1,
    (none_level_only_below_threshold Level.FATAL "x" World.empty (OFStream.opened true)
      ⟨5, 4, 3, 2, 0, 124⟩ (by decide)).2.1⟩

/-- Claim C12: for a local time with a four-digit year and every other field in
its calendar range, what an accepted write on an open file sink puts before the
label is exactly the 22 characters `[YYYY-MM-DD HH:MM:SS] `: four year digits
and two digits each for month (`tm_mon + 1`), day, hour, minute and second,
with the separators `-`, `-`, blank, `:`, `:`, and the digits decode back to
the field values. -/
theorem filesink_timestamp_layout (s : FileSink) (level : Level) (str : String) (now : Tm)
    (hopen : s.m_file.failbit = false) (hwidth : s.m_file.width = 0)
    (hpass : s.m_minLevel.toNat ≤ level.toNat) (hr : now.inRange) :
    ∃ y1 y2 y3 y4 mo1 mo2 d1 d2 h1 h2 mi1 mi2 s1 s2 : Char,
      (s.write level str now).m_file.content =
        s.m_file.content ++
          (String.mk ['[', y1, y2, y3, y4, '-', mo1, mo2, '-', d1, d2, ' ', h1, h2, ':',
              mi1, mi2, ':', s1, s2, ']', ' ']
            ++ (fileLabelSpec level ++ (str ++ "\n"))) ∧
      (String.mk ['[', y1, y2, y3, y4, '-', mo1, mo2, '-', d1, d2, ' ', h1, h2, ':',
          mi1, mi2, ':', s1, s2, ']', ' ']).length = 22 ∧
      (∀ c ∈ [y1, y2, y3, y4, mo1, mo2, d1, d2, h1, h2, mi1, mi2, s1, s2],
        c.isDigit = true) ∧
      (decodeDecimal [y1, y2, y3, y4] : Int) = now.tm_year + 1900 ∧
      (decodeDecimal [mo1, mo2] : Int) = now.tm_mon + 1 ∧
      (decodeDecimal [d1, d2] : Int) = now.tm_mday ∧
      (decodeDecimal [h1, h2] : Int) = now.tm_hour ∧
      (decodeDecimal [mi1, mi2] : Int) = now.tm_min ∧
      (decodeDecimal [s1, s2] : Int) = now.tm_sec := by
  have hc := timestamp_chars now hr
  obtain ⟨a1, a2, b1, b2, c1, c2, e1, e2, f1, f2, g1, g2⟩ := hr
  have dv : ∀ d : Nat, d < 10 → d.digitChar.toNat - '0'.toNat = d := digit_value
  have dd : ∀ d : Nat, d < 10 → d.digitChar.isDigit = true := digit_isDigit
  refine ⟨((now.tm_year + 1900).toNat / 1000).digitChar,
    ((now.tm_year + 1900).toNat / 100 % 10).digitChar,
    ((now.tm_year + 1900).toNat / 10 % 10).digitChar,
    ((now.tm_year + 1900).toNat % 10).digitChar,
    ((now.tm_mon + 1).toNat / 10).digitChar, ((now.tm_mon + 1).toNat % 10).digitChar,
    (now.tm_mday.toNat / 10).digitChar, (now.tm_mday.toNat % 10).digitChar,
    (now.tm_hour.toNat / 10).digitChar, (now.tm_hour.toNat % 10).digitChar,
    (now.tm_min.toNat / 10).digitChar, (now.tm_min.toNat % 10).digitChar,
    (now.tm_sec.toNat / 10).digitChar, (now.tm_sec.toNat % 10).digitChar,
    ?_, rfl, ?_, ?_, ?_, ?_, ?_, ?_, ?_⟩
  · cases s with
    | mk T f =>
      cases f with
      | mk fb c fl wd =>
        simp only at hopen hwidth hpass
        subst hopen
        subst hwidth
        rw [write_good T level c fl 0 str now hpass, hc]
        simp only [padLeft_zero, String.append_assoc]
        congr 1
  · intro c hmem
    simp only [List.mem_cons, List.mem_singleton, List.not_mem_nil, or_false] at hmem
    rcases hmem with h | h | h | h | h | h | h | h | h | h | h | h | h | h <;>
      (rw [h]; apply dd; omega)
  · simp only [decodeDecimal, List.foldl_cons, List.foldl_nil]
    rw [dv _ (by omega), dv _ (by omega), dv _ (by omega), dv _ (by omega)]
    omega
  · simp only [decodeDecimal, List.foldl_cons, List.foldl_nil]
    rw [dv _ (by omega), dv _ (by omega)]
    omega
  · simp only [decodeDecimal, List.foldl_cons, List.foldl_nil]
    rw [dv _ (by omega), dv _ (by omega)]
    omega
  · simp only [decodeDecimal, List.foldl_cons, List.foldl_nil]
    rw [dv _ (by omega), dv _ (by omega)]
    omega
  · simp only [decodeDecimal, List.foldl_cons, List.foldl_nil]
    rw [dv _ (by omega), dv _ (by omega)]
    omega
  · simp only [decodeDecimal, List.foldl_cons, List.foldl_nil]
    rw [dv _ (by omega), dv _ (by omega)]
    omega

/-- Claim C12, at a concrete input: the last second of the year 9999, with a
leap second. -/
theorem filesink_timestamp_layout_witness :
    (OFStream.opened true).failbit = false ∧ (OFStream.opened true).width = 0 ∧
    Level.NONE.toNat ≤ Level.INFO.toNat ∧ Tm.inRange ⟨60, 59, 23, 31, 11, 8099⟩ ∧
    ∃ y1 y2 y3 y4 mo1 mo2 d1 d2 h1 h2 mi1 mi2 s1 s2 : Char,
      (FileSink.write ⟨Level.NONE, OFStream.opened true⟩ Level.INFO "a"
          ⟨60, 59, 23, 31, 11, 8099⟩).m_file.content =
        (OFStream.opened true).content ++
          (String.mk ['[', y1, y2, y3, y4, '-', mo1, mo2, '-', d1, d2, ' ', h1, h2, ':',
              mi1, mi2, ':', s1, s2, ']', ' ']
            ++ (fileLabelSpec Level.INFO ++ ("a" ++ "\n"))) ∧
      (decodeDecimal [y1, y2, y3, y4] : Int) = 8099 + 1900 ∧
      (decodeDecimal [s1, s2] : Int) = 60 := by
  refine ⟨rfl, rfl, by decide, by decide, ?_⟩
  obtain ⟨y1, y2, y3, y4, mo1, mo2, d1, d2, h1, h2, mi1, mi2, s1, s2, hc, _, _, hy, _, _, _, _,
    hs⟩ := filesink_timestamp_layout ⟨Level.NONE, OFStream.opened true⟩ Level.INFO "a"
      ⟨60, 59, 23, 31, 11, 8099⟩ rfl rfl (by decide) (by decide)
  exact ⟨y1, y2, y3, y4, mo1, mo2, d1, d2, h1, h2, mi1, mi2, s1, s2, hc, hy, hs⟩

/-- Claim C13, the code at an accepted `INFO` message: the tag written before
the text is `[INGO]: `, not `[INFO]: `. -/
theorem consolesink_info_tag_misspelled :
    ConsoleSink.write ⟨Level.INFO⟩ Level.INFO "x" World.empty =
      { cout := "[INGO]: x\n", cerr := "" } ∧
    ConsoleSink.write ⟨Level.INFO⟩ Level.INFO "x" World.empty ≠
      { cout := "[INFO]: x\n", cerr := "" } := by
  decide

/-- Claim C14, refuted as stated: a message text with a newline in it makes
the file gain two newline characters, one of them inside the line. -/
theorem filesink_one_line_counterexample :
    (FileSink.write ⟨Level.NONE, OFStream.opened true⟩ Level.INFO "a\nb"
      ⟨5, 4, 3, 2, 0, 124⟩).m_file.content = "[2024-01-02 03:04:05] Info:    a\nb\n" ∧
    newlineCount "[2024-01-02 03:04:05] Info:    a\nb\n" = 2 := by
  decide

/-- Claim C14, amended: for an open file sink and a level that passes its
threshold, one write appends a text that ends in a newline, and whose
timestamp and label hold no newline; it contains one newline character more
than the message text does. So the file gains exactly one line, with the
single newline at the end, when the message text has no newline in it. -/
theorem filesink_newlines_of_write (s : FileSink) (level : Level) (str : String) (now : Tm)
    (hopen : s.m_file.failbit = false) (hwidth : s.m_file.width = 0)
    (hpass : s.m_minLevel.toNat ≤ level.toNat) :
    (s.write level str now).m_file.content =
      s.m_file.content ++
        (("[" ++ timestampSpec now ++ "] " ++ fileLabelSpec level) ++ str ++ "\n") ∧
    newlineCount ("[" ++ timestampSpec now ++ "] " ++ fileLabelSpec level) = 0 ∧
    newlineCount (("[" ++ timestampSpec now ++ "] " ++ fileLabelSpec level) ++ str ++ "\n") =
      newlineCount str + 1 ∧
    (newlineCount str = 0 →
      newlineCount (("[" ++ timestampSpec now ++ "] " ++ fileLabelSpec level) ++ str ++ "\n")
        = 1) := by
  have h0 : newlineCount ("[" ++ timestampSpec now ++ "] " ++ fileLabelSpec level) = 0 := by
    simp only [newlineCount_append, newlineCount_timestamp, label_no_newline]
    rfl
  have h1 : newlineCount
      (("[" ++ timestampSpec now ++ "] " ++ fileLabelSpec level) ++ str ++ "\n") =
        newlineCount str + 1 := by
    rw [newlineCount_append, newlineCount_append, h0]
    have hn : newlineCount "\n" = 1 := rfl
    rw [hn]
    omega
  refine ⟨?_, h0, h1, ?_⟩
  · cases s with
    | mk T f =>
      cases f with
      | mk fb c fl wd =>
        simp only at hopen hwidth hpass
        subst hopen
        subst hwidth
        rw [write_good T level c fl 0 str now hpass]
        simp [padLeft_zero, String.append_assoc]
  · intro hs
    rw [h1, hs]

/-- Claim C14 amended, at a concrete input: the text `ready`, which has no
newline. -/
theorem filesink_newlines_of_write_witness :
    (OFStream.opened true).failbit = false ∧ (OFStream.opened true).width = 0 ∧
    Level.NONE.toNat ≤ Level.INFO.toNat ∧
    newlineCount (("[" ++ timestampSpec ⟨5, 4, 3, 2, 0, 124⟩ ++ "] "
      ++ fileLabelSpec Level.INFO) ++ "ready" ++ "\n") = 1 :=
  ⟨rfl, rfl, by decide,
    (filesink_newlines_of_write ⟨Level.NONE, OFStream.opened true⟩ Level.INFO "ready"
      ⟨5, 4, 3, 2, 0, 124⟩ rfl rfl (by decide)).2.2.2 (by decide)⟩

/-- Claim C15, the macros as written: `LOG_DEBUG` and `LOG_INFO` construct a
`LogStream` bound to `DEBUG` and `INFO`, while the level names in the bodies of
`LOG_WARN` and `LOG_ERR`, `WARN` and `ERR`, are no enumerators of `Level`, so
these two construct nothing. -/
theorem log_macros_warn_err_unresolved :
    LogMacro.expand LogMacro.LOG_DEBUG = some (LogStream.new Level.DEBUG) ∧
    LogMacro.expand LogMacro.LOG_INFO = some (LogStream.new Level.INFO) ∧
    LogMacro.expand LogMacro.LOG_WARN = none ∧
    LogMacro.expand LogMacro.LOG_ERR = none ∧
    Level.ofName "WARNING" = some Level.WARNING ∧
    Level.ofName "ERROR" = some Level.ERROR := by
  decide

/-- Claim C16: after any sequence of `addSink` and `write` calls on an empty
`Logger`, the sinks held are exactly those added, in the order added: the sink
at each position is the sink registered there, of the same subclass and with
the threshold it was constructed with, having received through its own `write`
the writes issued after its registration (a file sink's file keeps its text and
may have gained more). One `Logger::write` leaves at every position the sink
that was there, after its own `write`: it adds, removes, replaces and reorders
nothing and changes no threshold, so the same level meets the same filtering
decisions when it is written again. -/
theorem logger_sinks_are_those_added (calls : List LoggerCall) (w w1 : World) (lg : Logger)
    (level : Level) (str : String) (clock : Nat → Tm) :
    (Logger.run calls (Logger.new, w)).1.m_sinks = expectedSinks calls 0 ∧
    List.Forall₂ LogSink.continues (addedSinks calls)
      (Logger.run calls (Logger.new, w)).1.m_sinks ∧
    (Logger.run calls (Logger.new, w)).1.m_sinks.map LogSink.minLevel =
      (addedSinks calls).map LogSink.minLevel ∧
    (Logger.run calls (Logger.new, w)).1.m_sinks.map LogSink.isFile =
      (addedSinks calls).map LogSink.isFile ∧
    (Logger.run calls (Logger.new, w)).1.m_sinks.length = (addedSinks calls).length ∧
    (Logger.write lg level str clock w1).1.m_sinks =
      lg.m_sinks.enum.map
        (fun p => (LogSink.write p.2 level str (clock p.1) World.empty).1) ∧
    List.Forall₂ LogSink.continues lg.m_sinks (Logger.write lg level str clock w1).1.m_sinks ∧
    (Logger.write lg level str clock w1).1.m_sinks.map LogSink.minLevel =
      lg.m_sinks.map LogSink.minLevel ∧
    (Logger.write lg level str clock w1).1.m_sinks.map LogSink.isFile =
      lg.m_sinks.map LogSink.isFile ∧
    (Logger.write lg level str clock w1).1.m_sinks.length = lg.m_sinks.length ∧
    (Logger.write lg level str clock w1).1.m_sinks.map
        (fun s => decide (level.toNat < s.minLevel.toNat)) =
      lg.m_sinks.map (fun s => decide (level.toNat < s.minLevel.toNat)) := by
  obtain ⟨h1, h2⟩ := run_shape calls (Logger.new, w)
  obtain ⟨k1, k2⟩ := write_shape lg level str clock w1
  have hx : (Logger.run calls (Logger.new, w)).1.m_sinks = expectedSinks calls 0 := by
    have := run_sinks_eq calls (Logger.new, w)
    simpa [Logger.new] using this
  have hs := write_sinks_eq lg level str clock w1
  simp only [Logger.new, List.map_nil, List.nil_append] at h1 h2
  refine ⟨hx, ?_, h1, h2, ?_, hs, ?_, k1, k2, ?_, ?_⟩
  · rw [hx]
    exact expectedSinks_continues calls 0
  · have := congrArg List.length h1
    simpa using this
  · rw [hs]
    exact enum_map_continues _
      (fun p => sink_write_continues p.2 level str (clock p.1) World.empty) lg.m_sinks 0
  · have := congrArg List.length k1
    simpa using this
  · have := congrArg (List.map (fun T : Level => decide (level.toNat < T.toNat))) k1
    simpa [List.map_map, Function.comp] using this

end Utilities
